import Mathlib

/-!
Verification development for the Stock-Portfolio-Analyzer program
(`src/Code.py`, class `StockPortfolio`).

Embedding conventions:
* Python floats are modelled as exact rationals (`ℚ`); Python ints as `ℤ`.
  Every numeric value a Python float can hold is a finite decimal fraction,
  which the predicate `isDecB` captures.
* The SQLite database reachable through the single connection is modelled by
  `DB`: each table is a committed list plus a list of rows executed inside the
  currently open (not yet committed) transaction.  `SELECT` statements issued
  on the same connection see committed and pending rows alike
  (`visibleStocks`, `get_portfolio`), and `conn.commit()` moves all pending
  rows of both tables into the committed lists.
* CSV files are modelled at the record level (header plus rows of cell
  strings), which is the abstraction the `csv` module provides on both the
  writing and the reading side.  `float(...)` / `int(...)` conversions are
  modelled by `parseFloat` / `parseInt`, and the strings `csv.writer` obtains
  from `str(...)` on floats and ints by `fmtRat` / `intToString`.
* The Yahoo-Finance lookup `get_current_price` (which returns a price or
  `None`, catching every service error) is modelled by an oracle parameter
  `price : String → Option ℚ`.
* Exceptions that the Python code does not catch are explicit error outcomes
  (`ImportOutcome.raised`, the error results of `ReportResult`).
-/

namespace StockPA

/-! ## Decimal digits: values, parsing, printing -/

/-- Is `c` one of the ASCII digits accepted by Python's `float`/`int`? -/
def isDigitChar (c : Char) : Bool :=
  decide ('0' ≤ c ∧ c ≤ '9')

/-- Numeric value of an ASCII digit character. -/
def digitVal (c : Char) : Nat :=
  c.toNat - 48

/-- Value of a digit string read most-significant first. -/
def digitsVal (cs : List Char) : Nat :=
  cs.foldl (fun a c => a * 10 + digitVal c) 0

/-- The digit character for `d < 10`. -/
def digitChar : Nat → Char
  | 0 => '0'
  | 1 => '1'
  | 2 => '2'
  | 3 => '3'
  | 4 => '4'
  | 5 => '5'
  | 6 => '6'
  | 7 => '7'
  | 8 => '8'
  | _ => '9'

/-- Decimal digits of `n`, least-significant first; `fuel` bounds recursion so
that the definition is structural and kernel-reducible. -/
def natDigitsRevFuel : Nat → Nat → List Char
  | 0, _ => []
  | _ + 1, 0 => []
  | fuel + 1, n + 1 => digitChar ((n + 1) % 10) :: natDigitsRevFuel fuel ((n + 1) / 10)

/-- Decimal digits of `n`, most-significant first (empty for `0`). -/
def natDigits (n : Nat) : List Char :=
  (natDigitsRevFuel n n).reverse

/-- Python `str` on a nonnegative integer. -/
def natToString (n : Nat) : String :=
  if n = 0 then "0" else String.mk (natDigits n)

/-- Python `str` on an integer. -/
def intToString (v : Int) : String :=
  if v < 0 then String.mk ('-' :: (natToString (-v).toNat).data) else natToString v.toNat

/-- Model of Python `int(s)` on the digit strings it accepts. -/
def parseInt (s : String) : Option Int :=
  if s.data.head? = some '-' then
    if s.data.tail ≠ [] ∧ s.data.tail.all isDigitChar then
      some (-(digitsVal s.data.tail : Int))
    else none
  else
    if s.data ≠ [] ∧ s.data.all isDigitChar then some (digitsVal s.data : Int)
    else none

/-- Split a character list at the first dot, keeping what follows it. -/
def splitAtDot : List Char → List Char × Option (List Char)
  | [] => ([], none)
  | c :: cs =>
    if c = '.' then ([], some cs)
    else
      let r := splitAtDot cs
      (c :: r.1, r.2)

/-- Value of a dot-free unsigned numeral (`digits`). -/
def parseNoDot (ip : List Char) : Option ℚ :=
  if ip ≠ [] ∧ ip.all isDigitChar then some ((digitsVal ip : ℚ)) else none

/-- Value of an unsigned numeral with a dot (`digits.digits`, either side
possibly empty but not both). -/
def parseWithDot (ip fp : List Char) : Option ℚ :=
  if (ip ≠ [] ∨ fp ≠ []) ∧ ip.all isDigitChar ∧ fp.all isDigitChar then
    some ((digitsVal ip : ℚ) + (digitsVal fp : ℚ) / 10 ^ fp.length)
  else none

/-- Model of Python `float(s)` on an unsigned decimal numeral
(`digits`, `digits.`, `.digits` or `digits.digits`). -/
def parseFloatCore (cs : List Char) : Option ℚ :=
  match splitAtDot cs with
  | (ip, none) => parseNoDot ip
  | (ip, some fp) => parseWithDot ip fp

/-- Model of Python `float(s)`: optional leading minus sign, then an unsigned
decimal numeral. -/
def parseFloat (s : String) : Option ℚ :=
  if s.data.head? = some '-' then (parseFloatCore s.data.tail).map (fun q => -q)
  else parseFloatCore s.data

/-- The exponent `k` such that `q * 10 ^ k` is an integer, found by bounded
search (it exists for every decimal fraction, and every Python float is one). -/
def decExp (q : ℚ) : Nat :=
  (((List.range (q.den + 1)).find? fun k => (q * 10 ^ k).den == 1).getD 0)

/-- `q` is a finite decimal fraction — the exact values Python floats take. -/
def isDecB (q : ℚ) : Bool :=
  (q * 10 ^ decExp q).den == 1

/-- Digits of `m`, zero-padded on the left to at least `k + 1` characters. -/
def padDigits (m k : Nat) : List Char :=
  List.replicate (k + 1 - (natDigits m).length) '0' ++ natDigits m

/-- The characters printed for the decimal fraction `m / 10 ^ k`: the digits
of `m` with a decimal point inserted `k` places from the right (and a trailing
`.0` for integral values, as Python `str` prints for floats). -/
def fmtDigits (m k : Nat) : List Char :=
  if k = 0 then padDigits m k ++ ['.', '0']
  else
    (padDigits m k).take ((padDigits m k).length - k) ++
      '.' :: (padDigits m k).drop ((padDigits m k).length - k)

/-- Python `str` on a nonnegative float. -/
def fmtNonneg (q : ℚ) : String :=
  String.mk (fmtDigits (q * 10 ^ decExp q).num.toNat (decExp q))

/-- Python `str` on a float (exact decimal printing, as `repr`/`str` give for
every float value). -/
def fmtRat (q : ℚ) : String :=
  if q < 0 then String.mk ('-' :: (fmtNonneg (-q)).data) else fmtNonneg q

/-! ## Data model

The two SQLite tables of `_create_tables`, with the AUTOINCREMENT surrogate
keys made explicit, plus the per-connection transaction state: rows inserted
by `cursor.execute` live in the pending lists until `conn.commit()` moves
them into the committed lists.  All `SELECT`s go through the same connection
and therefore see committed and pending rows alike. -/

/-- One row of the `stocks` table. -/
structure PriceBar where
  id : Nat
  symbol : String
  date : String
  openPrice : ℚ
  highPrice : ℚ
  lowPrice : ℚ
  closePrice : ℚ
  volume : ℤ
deriving DecidableEq

/-- The seven data fields of a price bar (what one CSV record converts to,
before the table assigns an id). -/
structure PriceBarData where
  symbol : String
  date : String
  openPrice : ℚ
  highPrice : ℚ
  lowPrice : ℚ
  closePrice : ℚ
  volume : ℤ
deriving DecidableEq

/-- One row of the `portfolio` table. -/
structure Lot where
  id : Nat
  symbol : String
  shares : ℤ
  purchase_price : ℚ
  purchase_date : String
deriving DecidableEq

/-- The database as seen through the single connection. -/
structure DB where
  stocks : List PriceBar
  stocksPending : List PriceBar
  portfolio : List Lot
  portfolioPending : List Lot
  nextStockId : Nat
  nextLotId : Nat
deriving DecidableEq

/-- The `stocks` rows a `SELECT` on this connection returns (committed plus
pending, in insertion order). -/
def visibleStocks (db : DB) : List PriceBar :=
  db.stocks ++ db.stocksPending

/-- `conn.commit()`: every pending row of both tables becomes durable. -/
def commit (db : DB) : DB :=
  { stocks := db.stocks ++ db.stocksPending
    stocksPending := []
    portfolio := db.portfolio ++ db.portfolioPending
    portfolioPending := []
    nextStockId := db.nextStockId
    nextLotId := db.nextLotId }

/-- `cursor.execute(INSERT INTO stocks ...)`: the row joins the open
transaction and gets the next surrogate key. -/
def insertStock (db : DB) (d : PriceBarData) : DB :=
  { db with
    stocksPending := db.stocksPending ++
      [⟨db.nextStockId, d.symbol, d.date, d.openPrice, d.highPrice, d.lowPrice, d.closePrice,
        d.volume⟩]
    nextStockId := db.nextStockId + 1 }

/-- The seven data fields of a stored bar, id dropped. -/
def PriceBar.fields (b : PriceBar) : PriceBarData :=
  ⟨b.symbol, b.date, b.openPrice, b.highPrice, b.lowPrice, b.closePrice, b.volume⟩

/-- A CSV file at the record level, as the `csv` module presents it: a header
row and one list of cell strings per data row. -/
structure CsvFile where
  header : List String
  rows : List (List String)
deriving DecidableEq

/-- A path handed to `import_from_csv`: either no readable file
(`FileNotFoundError` at `open`) or a CSV file. -/
inductive CsvSource where
  | missing
  | file (f : CsvFile)
deriving DecidableEq

/-- Python `str.upper()` (on the ASCII range symbols use): upper-case every
character. -/
def pyUpper (s : String) : String :=
  String.mk (s.data.map Char.toUpper)

/-! ## CSV import (`import_from_csv`) -/

/-- Index of a column name in the header row, as `csv.DictReader` keys cells. -/
def colIndex (key : String) : List String → Option Nat
  | [] => none
  | h :: t => if h = key then some 0 else (colIndex key t).map (· + 1)

/-- How the processing of one CSV record can fail. -/
inductive RowErr where
  /-- An exception the `except` clause of `import_from_csv` does not list and
  which therefore propagates: `KeyError` for a column name absent from the
  header, `TypeError` for `float(None)`/`int(None)` on a short row, or
  `sqlite3.IntegrityError` for a `None` inserted into a `NOT NULL` column. -/
  | fatal
  /-- `ValueError` from `float(...)`/`int(...)`, which the `except` clause
  catches. -/
  | valueErr
deriving DecidableEq

/-- `row[key]` on a `csv.DictReader` record: `KeyError` when the header lacks
the column, `None` (`restval`) when the row is shorter than the header. -/
def getStr (header row : List String) (key : String) : Except RowErr (Option String) :=
  match colIndex key header with
  | none => .error .fatal
  | some i => .ok row[i]?

/-- `float(row[key])`. -/
def getFloat (header row : List String) (key : String) : Except RowErr ℚ :=
  match getStr header row key with
  | .error e => .error e
  | .ok none => .error .fatal
  | .ok (some s) =>
    match parseFloat s with
    | none => .error .valueErr
    | some q => .ok q

/-- `int(row[key])`. -/
def getInt (header row : List String) (key : String) : Except RowErr ℤ :=
  match getStr header row key with
  | .error e => .error e
  | .ok none => .error .fatal
  | .ok (some s) =>
    match parseInt s with
    | none => .error .valueErr
    | some v => .ok v

/-- Evaluation of the INSERT argument tuple for one record, in source order:
`row['Symbol'], row['Date'], float(row['Open']), float(row['High']),
float(row['Low']), float(row['Close']), int(row['Volume'])`; a `None` symbol
or date then violates the `NOT NULL` constraints at `execute`. -/
def convertRow (header row : List String) : Except RowErr PriceBarData := do
  let sym ← getStr header row "Symbol"
  let dat ← getStr header row "Date"
  let o ← getFloat header row "Open"
  let hi ← getFloat header row "High"
  let lo ← getFloat header row "Low"
  let cl ← getFloat header row "Close"
  let vol ← getInt header row "Volume"
  match sym, dat with
  | some s, some d => pure ⟨s, d, o, hi, lo, cl, vol⟩
  | _, _ => .error .fatal

/-- What a call to `import_from_csv` does: its return value, or the fact that
an uncaught exception escaped, together with the connection state left behind. -/
inductive ImportOutcome where
  | ok (b : Bool) (db : DB)
  | raised (db : DB)
deriving DecidableEq

/-- The import loop: insert record after record; on `ValueError` return
`False` with the open transaction kept as it is (no rollback in the code); on
an uncaught exception propagate likewise without rollback; after the last
record `conn.commit()` and return `True`. -/
def importRows (header : List String) : List (List String) → DB → ImportOutcome
  | [], db => .ok true (commit db)
  | r :: rs, db =>
    match convertRow header r with
    | .ok bar => importRows header rs (insertStock db bar)
    | .error .valueErr => .ok false db
    | .error .fatal => .raised db

/-- `import_from_csv`: `FileNotFoundError` is caught and reported as `False`;
otherwise the records are processed in order. -/
def import_from_csv (src : CsvSource) (db : DB) : ImportOutcome :=
  match src with
  | .missing => .ok false db
  | .file f => importRows f.header f.rows db

/-! ## Portfolio operations -/

/-- `add_to_portfolio`: upper-case the symbol, insert one row, commit, return
`True`. -/
def add_to_portfolio (db : DB) (symbol : String) (shares : ℤ) (purchase_price : ℚ)
    (purchase_date : String) : Bool × DB :=
  let db' := { db with
    portfolioPending := db.portfolioPending ++
      [⟨db.nextLotId, pyUpper symbol, shares, purchase_price, purchase_date⟩]
    nextLotId := db.nextLotId + 1 }
  (true, commit db')

/-- `get_portfolio`: `SELECT * FROM portfolio` on the same connection. -/
def get_portfolio (db : DB) : List Lot :=
  db.portfolio ++ db.portfolioPending

/-- Byte-wise (SQLite `ORDER BY` on TEXT) strict comparison of strings. -/
def strLtB : List Char → List Char → Bool
  | [], [] => false
  | [], _ :: _ => true
  | _ :: _, [] => false
  | a :: as, b :: bs =>
    if a.val < b.val then true else if b.val < a.val then false else strLtB as bs

/-- The `stocks` rows matched by `WHERE symbol = ?` with the upper-cased
query. -/
def matchingBars (db : DB) (symbol : String) : List PriceBar :=
  (visibleStocks db).filter (fun b => b.symbol == pyUpper symbol)

def insertByDate (b : PriceBar) : List PriceBar → List PriceBar
  | [] => [b]
  | x :: xs => if strLtB b.date.data x.date.data then b :: x :: xs else x :: insertByDate b xs

/-- `ORDER BY date`. -/
def sortByDate (l : List PriceBar) : List PriceBar :=
  l.foldr insertByDate []

/-- `get_stock_data`: `SELECT date, close FROM stocks WHERE symbol = ?
ORDER BY date` with the query upper-cased. -/
def get_stock_data (db : DB) (symbol : String) : List (String × ℚ) :=
  (sortByDate (matchingBars db symbol)).map (fun b => (b.date, b.closePrice))

/-! ## Performance report (`portfolio_performance_report`)

`get_current_price` (Yahoo Finance, every service error caught and turned
into `None`) is a parameter `price : String → Option ℚ`. -/

/-- One entry of `report_data` (the code stores the monetary fields as
formatted `$X.XX` strings; the values they are formatted from are kept here). -/
structure ReportRow where
  symbol : String
  shares : ℤ
  purchase_price : ℚ
  current_price : ℚ
  investment : ℚ
  current_value : ℚ
  gain_loss : ℚ
  gain_loss_pct : ℚ
deriving DecidableEq

/-- The summary dictionary (values kept numerically, as for `ReportRow`). -/
structure Summary where
  total_investment : ℚ
  total_current_value : ℚ
  total_gain_loss : ℚ
  total_gain_loss_pct : ℚ
deriving DecidableEq

/-- Loop state of the report loop. -/
structure RepAcc where
  rows : List ReportRow
  totInv : ℚ
  totCur : ℚ
deriving DecidableEq

/-- Outcome of `portfolio_performance_report`. -/
inductive ReportResult where
  /-- `return False, {}` for an empty portfolio. -/
  | noHoldings
  /-- `ZeroDivisionError` raised by `(gain_loss / investment) * 100` for a
  zero-investment lot. -/
  | rowDivZero
  /-- `ZeroDivisionError` raised in the summary percentage when
  `total_investment` is zero. -/
  | summaryDivZero
  /-- `ValueError` raised by `plt.pie(allocations, labels=symbols, ...)`
  (matplotlib rejects a negative wedge or a labels list whose length differs
  from the data length); the rows and summary computed before the failure are
  recorded here for specification purposes — the Python call returns nothing. -/
  | chartError (rows : List ReportRow) (summary : Summary)
  /-- Normal return of `(df, summary)`. -/
  | ok (rows : List ReportRow) (summary : Summary)
deriving DecidableEq

/-- One iteration of the report loop over a holding: the investment is added
to the running total before the price check, a lot without a current price is
skipped (`continue`), and the percentage divides by the lot's investment. -/
def processLot (price : String → Option ℚ) (acc : RepAcc) (l : Lot) : Except Unit RepAcc :=
  let investment := (l.shares : ℚ) * l.purchase_price
  let totInv := acc.totInv + investment
  match price l.symbol with
  | none => .ok { acc with totInv := totInv }
  | some cp =>
    let current_value := (l.shares : ℚ) * cp
    let totCur := acc.totCur + current_value
    let gain_loss := current_value - investment
    if investment = 0 then .error ()
    else
      .ok { rows := acc.rows ++
              [⟨l.symbol, l.shares, l.purchase_price, cp, investment, current_value, gain_loss,
                gain_loss / investment * 100⟩]
            totInv := totInv
            totCur := totCur }

def runLots (price : String → Option ℚ) : List Lot → RepAcc → Except Unit RepAcc
  | [], acc => .ok acc
  | l :: ls, acc =>
    match processLot price acc l with
    | .error e => .error e
    | .ok acc' => runLots price ls acc'

/-- `portfolio_performance_report`.  The second component lists the artifact
files written, in order: the report CSV is written after the summary is built,
and the allocation chart after the report CSV, so an error leaves the earlier
artifacts written and the later ones untouched. -/
def performance_report (price : String → Option ℚ) (db : DB) : ReportResult × List String :=
  let holdings := get_portfolio db
  if holdings = [] then (.noHoldings, [])
  else
    match runLots price holdings ⟨[], 0, 0⟩ with
    | .error _ => (.rowDivZero, [])
    | .ok acc =>
      if acc.totInv = 0 then (.summaryDivZero, [])
      else
        let summary : Summary :=
          ⟨acc.totInv, acc.totCur, acc.totCur - acc.totInv,
            (acc.totCur - acc.totInv) / acc.totInv * 100⟩
        let labels := holdings.map (fun l => l.symbol)
        let allocations :=
          holdings.filterMap (fun l => (price l.symbol).map (fun p => (l.shares : ℚ) * p))
        if allocations.length = labels.length ∧ ∀ a ∈ allocations, 0 ≤ a then
          (.ok acc.rows summary, ["portfolio_report.csv", "portfolio_allocation.png"])
        else
          (.chartError acc.rows summary, ["portfolio_report.csv"])

/-! ## CSV export (`export_to_csv`) -/

/-- The header row `export_to_csv` writes. -/
def exportHeader : List String :=
  ["ID", "Symbol", "Date", "Open", "High", "Low", "Close", "Volume"]

/-- The cell strings `csv.writer.writerows` produces for one stored bar
(`str` of each tuple element). -/
def exportRow (b : PriceBar) : List String :=
  [natToString b.id, b.symbol, b.date, fmtRat b.openPrice, fmtRat b.highPrice,
    fmtRat b.lowPrice, fmtRat b.closePrice, intToString b.volume]

/-- `export_to_csv`: `SELECT * FROM stocks`, then one CSV record per row. -/
def export_to_csv (db : DB) : CsvFile :=
  ⟨exportHeader, (visibleStocks db).map exportRow⟩

/-! ## Report-loop lemmas -/

/-- `shares * purchase_price` of a lot. -/
def lotInvestment (l : Lot) : ℚ :=
  (l.shares : ℚ) * l.purchase_price

/-- `shares * current_price` of a lot whose price lookup succeeded. -/
def lotCurrentValue (price : String → Option ℚ) (l : Lot) : ℚ :=
  (l.shares : ℚ) * ((price l.symbol).getD 0)

/-- The report row produced for a lot whose price lookup succeeded and whose
investment is nonzero. -/
def mkRow (price : String → Option ℚ) (l : Lot) : ReportRow :=
  ⟨l.symbol, l.shares, l.purchase_price, (price l.symbol).getD 0, lotInvestment l,
    lotCurrentValue price l, lotCurrentValue price l - lotInvestment l,
    (lotCurrentValue price l - lotInvestment l) / lotInvestment l * 100⟩

/-! ## Predicates and concrete inputs used by the claim theorems -/

/-- The column names `import_from_csv` looks up in every record. -/
def requiredCols : List String :=
  ["Symbol", "Date", "Open", "High", "Low", "Close", "Volume"]

/-- A source `import_from_csv` can process without hitting an uncaught
exception: missing file, or a header containing all seven required columns
with no record shorter than the header. -/
def wellFormedSource : CsvSource → Prop
  | .missing => True
  | .file f => (∀ key ∈ requiredCols, key ∈ f.header) ∧ ∀ r ∈ f.rows, f.header.length ≤ r.length

/-- The record converts without error. -/
def rowOk (header row : List String) : Bool :=
  match convertRow header row with
  | .ok _ => true
  | .error _ => false

/-- The record fails conversion with a caught `ValueError`. -/
def rowFailsValue (header row : List String) : Bool :=
  match convertRow header row with
  | .error .valueErr => true
  | _ => false

/-- All four float fields of the bar are finite decimal fractions (as every
value a Python float can hold is). -/
def barDecimal (b : PriceBar) : Prop :=
  isDecB b.openPrice = true ∧ isDecB b.highPrice = true ∧ isDecB b.lowPrice = true ∧
    isDecB b.closePrice = true

/-- The two-lot portfolio of the spec's worked example. -/
def dbC6 : DB :=
  ⟨[], [], [⟨1, "AAPL", 10, 100, "2024-01-01"⟩, ⟨2, "MSFT", 5, 200, "2024-01-02"⟩], [], 1, 3⟩

/-- The mocked current prices of the spec's worked example. -/
def priceC6 : String → Option ℚ :=
  fun s => if s = "AAPL" then some 110 else if s = "MSFT" then some 190 else none

def rowsC6 : List ReportRow :=
  [⟨"AAPL", 10, 100, 110, 1000, 1100, 100, 10⟩, ⟨"MSFT", 5, 200, 190, 1000, 950, -50, -5⟩]

def summaryC6 : Summary :=
  ⟨2000, 2050, 50, 5 / 2⟩

/-- Two lots, the second without an available price. -/
def dbCex1 : DB :=
  ⟨[], [], [⟨1, "A", 1, 10, "d1"⟩, ⟨2, "B", 2, 20, "d2"⟩], [], 1, 3⟩

def priceCex1 : String → Option ℚ :=
  fun s => if s = "A" then some 11 else none

def rowsCex1 : List ReportRow :=
  [⟨"A", 1, 10, 11, 10, 11, 1, 10⟩]

def sumCex1 : Summary :=
  ⟨50, 11, -39, -78⟩

/-- The spec-example lots, with the MSFT price lookup failing. -/
def dbC2x : DB :=
  ⟨[], [], [⟨1, "AAPL", 10, 100, "2024-01-01"⟩, ⟨2, "MSFT", 5, 200, "2024-01-02"⟩], [], 1, 3⟩

def priceC2x : String → Option ℚ :=
  fun s => if s = "AAPL" then some 110 else none

def dbWit1 : DB :=
  ⟨[], [], [⟨1, "A", 1, 1, "d1"⟩], [], 1, 2⟩

def priceWit1 : String → Option ℚ :=
  fun _ => some 1

/-- One zero-share lot with an available price. -/
def dbWit5 : DB :=
  ⟨[], [], [⟨1, "Z", 0, 5, "d"⟩], [], 1, 2⟩

def priceWit5 : String → Option ℚ :=
  fun _ => some 3

def dbWit8 : DB :=
  ⟨[], [], [], [], 1, 1⟩

def priceNone : String → Option ℚ :=
  fun _ => none

/-- A bar stored with a lower-case symbol. -/
def barWit10 : PriceBar :=
  ⟨1, "aapl", "2024-01-02", 1, 1, 1, 1, 1⟩

def dbWit10 : DB :=
  ⟨[barWit10], [], [], [], 2, 1⟩

/-- The CSV header the import expects. -/
def hdrStd : List String :=
  ["Symbol", "Date", "Open", "High", "Low", "Close", "Volume"]

/-- A record that converts cleanly (note the lower-case symbol, stored
verbatim). -/
def goodRowC3 : List String :=
  ["aapl", "2024-01-02", "2.0", "3.0", "1.0", "2.0", "7"]

/-- A record whose `Open` field is not numeric: `float("abc")` raises
`ValueError`. -/
def badRowC3 : List String :=
  ["MSFT", "2024-01-03", "abc", "1.0", "1.0", "1.0", "10"]

def dbWit3 : DB :=
  ⟨[], [], [], [], 1, 1⟩

/-- The bar `goodRowC3` inserts. -/
def barC3 : PriceBar :=
  ⟨1, "aapl", "2024-01-02", 2, 3, 1, 2, 7⟩

/-- A header whose first column is misnamed: `row['Symbol']` raises
`KeyError`. -/
def hdrBad : List String :=
  ["Sym", "Date", "Open", "High", "Low", "Close", "Volume"]

def rowC4 : List String :=
  ["AAPL", "2024-01-02", "1.0", "1.0", "1.0", "1.0", "10"]

def dbWit4 : DB :=
  ⟨[], [], [], [], 1, 1⟩

def rowWit4 : List String :=
  ["AAPL", "2024-01-02", "1.0", "2.0", "1.0", "2.0", "10"]

/-- A one-bar table with integral prices, for the round-trip witness. -/
def dbWit7 : DB :=
  ⟨[⟨1, "AAPL", "2024-01-02", 2, 3, 1, 2, 7⟩], [], [], [], 2, 1⟩

def dbWit7b : DB :=
  ⟨[], [], [], [], 1, 1⟩

/-! ## Lemmas and theorems -/

/-! ### Digit lemmas -/

theorem digitVal_digitChar {d : Nat} (h : d < 10) : digitVal (digitChar d) = d := by
  interval_cases d <;> rfl

theorem isDigitChar_digitChar {d : Nat} (h : d < 10) : isDigitChar (digitChar d) = true := by
  interval_cases d <;> rfl

theorem digitsVal_from (ys : List Char) :
    ∀ a : Nat, ys.foldl (fun a c => a * 10 + digitVal c) a = a * 10 ^ ys.length + digitsVal ys := by
  induction ys with
  | nil => intro a; simp [digitsVal]
  | cons c t ih =>
    intro a
    have h1 := ih (a * 10 + digitVal c)
    have h2 := ih (digitVal c)
    simp only [List.foldl_cons, List.length_cons]
    rw [h1]
    have : digitsVal (c :: t) = digitVal c * 10 ^ t.length + digitsVal t := by
      simpa [digitsVal, Nat.zero_mul, Nat.zero_add] using h2
    rw [this]; ring

theorem digitsVal_append (xs ys : List Char) :
    digitsVal (xs ++ ys) = digitsVal xs * 10 ^ ys.length + digitsVal ys := by
  have h := digitsVal_from ys (digitsVal xs)
  simpa [digitsVal, List.foldl_append] using h

theorem digitsVal_replicate_zero (n : Nat) (xs : List Char) :
    digitsVal (List.replicate n '0' ++ xs) = digitsVal xs := by
  induction n with
  | zero => simp
  | succ m ih =>
    have : List.replicate (m + 1) '0' ++ xs = '0' :: (List.replicate m '0' ++ xs) := by
      simp [List.replicate_succ]
    rw [this]
    have : digitsVal ('0' :: (List.replicate m '0' ++ xs))
        = digitsVal (List.replicate m '0' ++ xs) := by
      simp [digitsVal, digitVal]
    rw [this, ih]

theorem natDigitsRevFuel_spec :
    ∀ fuel n, n ≤ fuel →
      digitsVal (natDigitsRevFuel fuel n).reverse = n ∧
      ∀ c ∈ natDigitsRevFuel fuel n, isDigitChar c = true := by
  intro fuel
  induction fuel with
  | zero =>
    intro n hn
    have : n = 0 := Nat.le_zero.mp hn
    subst this
    simp [natDigitsRevFuel, digitsVal]
  | succ f ih =>
    intro n hn
    match n with
    | 0 => simp [natDigitsRevFuel, digitsVal]
    | m + 1 =>
      have hdiv : (m + 1) / 10 ≤ f := by
        have h1 : (m + 1) / 10 < m + 1 := Nat.div_lt_self (Nat.succ_pos m) (by norm_num)
        omega
      obtain ⟨ihv, ihd⟩ := ih ((m + 1) / 10) hdiv
      have hmod : (m + 1) % 10 < 10 := Nat.mod_lt _ (by norm_num)
      constructor
      · show digitsVal ((digitChar ((m + 1) % 10) :: natDigitsRevFuel f ((m + 1) / 10)).reverse)
            = m + 1
        rw [List.reverse_cons, digitsVal_append]
        simp only [List.length_singleton, pow_one]
        rw [ihv]
        have : digitsVal [digitChar ((m + 1) % 10)] = (m + 1) % 10 := by
          simp [digitsVal, digitVal_digitChar hmod]
        rw [this]
        omega
      · intro c hc
        simp only [natDigitsRevFuel, List.mem_cons] at hc
        rcases hc with h | h
        · subst h; exact isDigitChar_digitChar hmod
        · exact ihd c h

theorem digitsVal_natDigits (n : Nat) : digitsVal (natDigits n) = n :=
  (natDigitsRevFuel_spec n n le_rfl).1

theorem natDigits_all_digit (n : Nat) : ∀ c ∈ natDigits n, isDigitChar c = true := by
  intro c hc
  exact (natDigitsRevFuel_spec n n le_rfl).2 c (List.mem_reverse.mp hc)

theorem digit_ne_dot {c : Char} (h : isDigitChar c = true) : c ≠ '.' := by
  intro he
  subst he
  simp [isDigitChar] at h

theorem digit_ne_minus {c : Char} (h : isDigitChar c = true) : c ≠ '-' := by
  intro he
  subst he
  simp [isDigitChar] at h

theorem splitAtDot_append (ip fp : List Char) (h : ∀ c ∈ ip, c ≠ '.') :
    splitAtDot (ip ++ '.' :: fp) = (ip, some fp) := by
  induction ip with
  | nil => simp [splitAtDot]
  | cons c t ih =>
    have hc : c ≠ '.' := h c (List.mem_cons_self c t)
    have ht : ∀ x ∈ t, x ≠ '.' := fun x hx => h x (List.mem_cons_of_mem c hx)
    simp [splitAtDot, hc, ih ht]

/-! ### Printing / parsing round trip -/

theorem padDigits_all_digit (m k : Nat) : ∀ c ∈ padDigits m k, isDigitChar c = true := by
  intro c hc
  rcases List.mem_append.mp hc with h | h
  · have := List.eq_of_mem_replicate h
    subst this
    rfl
  · exact natDigits_all_digit m c h

theorem padDigits_val (m k : Nat) : digitsVal (padDigits m k) = m := by
  rw [padDigits, digitsVal_replicate_zero, digitsVal_natDigits]

theorem padDigits_len (m k : Nat) : k + 1 ≤ (padDigits m k).length := by
  rw [padDigits]
  simp only [List.length_append, List.length_replicate]
  omega

theorem decExp_den_one {q : ℚ} (h : isDecB q = true) : (q * 10 ^ decExp q).den = 1 := by
  simpa [isDecB] using h

theorem decExp_neg (q : ℚ) : decExp (-q) = decExp q := by
  unfold decExp
  have hp : ∀ k : Nat, (-q * 10 ^ k).den = (q * 10 ^ k).den := by
    intro k
    rw [neg_mul, Rat.neg_den]
  simp only [Rat.neg_den, hp]

theorem isDecB_neg (q : ℚ) : isDecB (-q) = isDecB q := by
  unfold isDecB
  rw [decExp_neg, neg_mul, Rat.neg_den]

theorem data_mk (l : List Char) : (String.mk l).data = l := rfl

theorem parseFloatCore_eq_withDot {cs ip fp : List Char} (h : splitAtDot cs = (ip, some fp)) :
    parseFloatCore cs = parseWithDot ip fp := by
  rw [parseFloatCore, h]

theorem fmtDigits_head_digit (m k : Nat) :
    ∃ c rest, fmtDigits m k = c :: rest ∧ isDigitChar c = true := by
  have hlen := padDigits_len m k
  have hall := padDigits_all_digit m k
  rw [fmtDigits]
  by_cases hk0 : k = 0
  · rw [if_pos hk0]
    have hne : padDigits m k ≠ [] := by
      intro h
      rw [h] at hlen
      simp at hlen
    obtain ⟨c, t, hct⟩ := List.exists_cons_of_ne_nil hne
    refine ⟨c, t ++ ['.', '0'], ?_, hall c (by rw [hct]; exact List.mem_cons_self c t)⟩
    rw [hct, List.cons_append]
  · rw [if_neg hk0]
    have hiplen : ((padDigits m k).take ((padDigits m k).length - k)).length
        = (padDigits m k).length - k := by
      rw [List.length_take]
      omega
    have hne : (padDigits m k).take ((padDigits m k).length - k) ≠ [] := by
      intro h
      rw [h, List.length_nil] at hiplen
      omega
    obtain ⟨c, t, hct⟩ := List.exists_cons_of_ne_nil hne
    refine ⟨c, t ++ '.' :: (padDigits m k).drop ((padDigits m k).length - k), ?_,
      hall c (List.take_subset _ _ (by rw [hct]; exact List.mem_cons_self c t))⟩
    rw [hct, List.cons_append]

theorem parseFloatCore_fmtDigits (m k : Nat) :
    parseFloatCore (fmtDigits m k) = some ((m : ℚ) / 10 ^ k) := by
  have hlen := padDigits_len m k
  have hall := padDigits_all_digit m k
  have hval := padDigits_val m k
  rw [fmtDigits]
  by_cases hk0 : k = 0
  · subst hk0
    rw [if_pos rfl]
    have hne : padDigits m 0 ≠ [] := by
      intro h
      rw [h] at hlen
      simp at hlen
    have hsplit : splitAtDot (padDigits m 0 ++ '.' :: ['0']) = (padDigits m 0, some ['0']) :=
      splitAtDot_append _ _ (fun c hc => digit_ne_dot (hall c hc))
    rw [parseFloatCore_eq_withDot hsplit, parseWithDot,
      if_pos ⟨Or.inl hne, List.all_eq_true.mpr hall, by decide⟩, hval]
    have h0 : digitsVal ['0'] = 0 := rfl
    rw [h0]
    norm_num
  · rw [if_neg hk0]
    have hsub : ∀ c ∈ (padDigits m k).take ((padDigits m k).length - k), isDigitChar c = true :=
      fun c hc => hall c (List.take_subset _ _ hc)
    have hsubf : ∀ c ∈ (padDigits m k).drop ((padDigits m k).length - k), isDigitChar c = true :=
      fun c hc => hall c (List.drop_subset _ _ hc)
    have hsplit := splitAtDot_append ((padDigits m k).take ((padDigits m k).length - k))
      ((padDigits m k).drop ((padDigits m k).length - k))
      (fun c hc => digit_ne_dot (hsub c hc))
    have hiplen : ((padDigits m k).take ((padDigits m k).length - k)).length
        = (padDigits m k).length - k := by
      rw [List.length_take]
      omega
    have hne : (padDigits m k).take ((padDigits m k).length - k) ≠ [] := by
      intro h
      rw [h, List.length_nil] at hiplen
      omega
    have hfplen : ((padDigits m k).drop ((padDigits m k).length - k)).length = k := by
      rw [List.length_drop]
      omega
    rw [parseFloatCore_eq_withDot hsplit, parseWithDot,
      if_pos ⟨Or.inl hne, List.all_eq_true.mpr hsub, List.all_eq_true.mpr hsubf⟩]
    have hm : digitsVal ((padDigits m k).take ((padDigits m k).length - k)) * 10 ^ k
        + digitsVal ((padDigits m k).drop ((padDigits m k).length - k)) = m := by
      have h1 := digitsVal_append ((padDigits m k).take ((padDigits m k).length - k))
        ((padDigits m k).drop ((padDigits m k).length - k))
      rw [List.take_append_drop, hval, hfplen] at h1
      omega
    rw [hfplen]
    have h10 : (10 : ℚ) ^ k ≠ 0 := by positivity
    field_simp
    exact_mod_cast hm

theorem parseFloatCore_fmtNonneg {q : ℚ} (h0 : 0 ≤ q) (hd : isDecB q = true) :
    parseFloatCore (fmtNonneg q).data = some q := by
  have hden : (q * 10 ^ decExp q).den = 1 := decExp_den_one hd
  have hnumnn : 0 ≤ (q * 10 ^ decExp q).num := by
    rw [Rat.num_nonneg]
    positivity
  have hdata : (fmtNonneg q).data = fmtDigits (q * 10 ^ decExp q).num.toNat (decExp q) := rfl
  rw [hdata, parseFloatCore_fmtDigits]
  congr 1
  have h1 : ((q * 10 ^ decExp q).num : ℚ) = q * 10 ^ decExp q := (Rat.den_eq_one_iff _).mp hden
  have h2 : (((q * 10 ^ decExp q).num.toNat : ℕ) : ℚ) = ((q * 10 ^ decExp q).num : ℚ) := by
    exact_mod_cast congrArg (fun z : ℤ => (z : ℚ)) (Int.toNat_of_nonneg hnumnn)
  rw [h2, h1]
  have h10 : (10 : ℚ) ^ decExp q ≠ 0 := by positivity
  field_simp

theorem parseFloat_fmtRat {q : ℚ} (hd : isDecB q = true) : parseFloat (fmtRat q) = some q := by
  by_cases hneg : q < 0
  · have h0 : 0 ≤ -q := by linarith
    have hd' : isDecB (-q) = true := by rw [isDecB_neg]; exact hd
    have hcore := parseFloatCore_fmtNonneg h0 hd'
    rw [fmtRat, if_pos hneg, parseFloat, data_mk, List.head?_cons, if_pos rfl, List.tail_cons,
      hcore]
    simp
  · have h0 : 0 ≤ q := not_lt.mp hneg
    rw [fmtRat, if_neg hneg, parseFloat]
    obtain ⟨c, rest, hd2, hc⟩ := fmtDigits_head_digit (q * 10 ^ decExp q).num.toNat (decExp q)
    have hdat : (fmtNonneg q).data = c :: rest := hd2
    rw [hdat, List.head?_cons,
      if_neg (by simp only [Option.some.injEq]; exact digit_ne_minus hc), ← hdat]
    exact parseFloatCore_fmtNonneg h0 hd

theorem natToString_facts (n : Nat) :
    (natToString n).data ≠ [] ∧ (∀ c ∈ (natToString n).data, isDigitChar c = true) ∧
      digitsVal (natToString n).data = n := by
  by_cases h : n = 0
  · subst h
    refine ⟨by decide, by decide, by decide⟩
  · rw [natToString, if_neg h, data_mk]
    refine ⟨?_, natDigits_all_digit n, digitsVal_natDigits n⟩
    intro he
    have hv := digitsVal_natDigits n
    rw [he] at hv
    simp [digitsVal] at hv
    exact h hv.symm

theorem parseInt_intToString (v : ℤ) : parseInt (intToString v) = some v := by
  by_cases hv : v < 0
  · obtain ⟨hne, hall, hval⟩ := natToString_facts (-v).toNat
    rw [intToString, if_pos hv, parseInt, data_mk, List.head?_cons, if_pos rfl, List.tail_cons,
      if_pos ⟨hne, List.all_eq_true.mpr hall⟩, hval]
    congr 1
    omega
  · obtain ⟨hne, hall, hval⟩ := natToString_facts v.toNat
    obtain ⟨c, t, hct⟩ := List.exists_cons_of_ne_nil hne
    have hc : isDigitChar c = true := hall c (by rw [hct]; exact List.mem_cons_self c t)
    rw [intToString, if_neg hv, parseInt, hct, List.head?_cons,
      if_neg (by simp only [Option.some.injEq]; exact digit_ne_minus hc), ← hct,
      if_pos ⟨hne, List.all_eq_true.mpr hall⟩, hval]
    congr 1
    omega

theorem runLots_err (price : String → Option ℚ) :
    ∀ (lots : List Lot) (acc : RepAcc),
      (∃ l ∈ lots, (l.shares : ℚ) * l.purchase_price = 0 ∧ (price l.symbol).isSome = true) →
      runLots price lots acc = .error () := by
  intro lots
  induction lots with
  | nil =>
    intro acc h
    simp at h
  | cons l ls ih =>
    intro acc h
    rcases h with ⟨w, hw, hinv, hsome⟩
    rcases List.mem_cons.mp hw with rfl | hmem
    · obtain ⟨cp, hcp⟩ := Option.isSome_iff_exists.mp hsome
      have hpl : processLot price acc w = .error () := by
        simp only [processLot, hcp]
        rw [if_pos hinv]
      simp only [runLots]
      rw [hpl]
    · cases hproc : processLot price acc l with
      | error e =>
        cases e
        simp only [runLots]
        rw [hproc]
      | ok acc' =>
        simp only [runLots]
        rw [hproc]
        exact ih acc' ⟨w, hmem, hinv, hsome⟩

theorem runLots_all_priced (price : String → Option ℚ) :
    ∀ (lots : List Lot) (acc : RepAcc),
      (∀ l ∈ lots, (price l.symbol).isSome = true ∧ lotInvestment l ≠ 0) →
      runLots price lots acc =
        .ok ⟨acc.rows ++ lots.map (mkRow price),
          acc.totInv + (lots.map lotInvestment).sum,
          acc.totCur + (lots.map (lotCurrentValue price)).sum⟩ := by
  intro lots
  induction lots with
  | nil =>
    intro acc h
    simp [runLots]
  | cons l ls ih =>
    intro acc h
    obtain ⟨hsome, hinv⟩ := h l (List.mem_cons_self l ls)
    obtain ⟨cp, hcp⟩ := Option.isSome_iff_exists.mp hsome
    have hinv' : ¬((l.shares : ℚ) * l.purchase_price = 0) := by
      simpa [lotInvestment] using hinv
    have hpl : processLot price acc l = .ok ⟨acc.rows ++ [mkRow price l],
        acc.totInv + lotInvestment l, acc.totCur + lotCurrentValue price l⟩ := by
      simp only [processLot, hcp]
      rw [if_neg hinv']
      simp [mkRow, lotInvestment, lotCurrentValue, hcp]
    simp only [runLots]
    rw [hpl]
    show runLots price ls _ = _
    rw [ih _ (fun x hx => h x (List.mem_cons_of_mem l hx))]
    simp [List.append_assoc, add_assoc]

theorem allocations_all_priced (price : String → Option ℚ) :
    ∀ lots : List Lot, (∀ l ∈ lots, (price l.symbol).isSome = true) →
      lots.filterMap (fun l => (price l.symbol).map (fun p => (l.shares : ℚ) * p)) =
        lots.map (lotCurrentValue price) := by
  intro lots
  induction lots with
  | nil => intro _; rfl
  | cons l ls ih =>
    intro h
    obtain ⟨cp, hcp⟩ := Option.isSome_iff_exists.mp (h l (List.mem_cons_self l ls))
    simp only [List.filterMap_cons, List.map_cons, hcp, Option.map_some]
    rw [ih (fun x hx => h x (List.mem_cons_of_mem l hx))]
    simp [lotCurrentValue, hcp]

/-! ## Claim theorems: the performance report -/

/-- Claim C5 (confirmed): for every holdings list containing a lot with
investment `shares * purchase_price` equal to zero whose current price is
available, `portfolio_performance_report` fails with a `ZeroDivisionError` in
the per-row percentage computation (the latent defect the spec documents), so
no artifact is written. -/
theorem C5_zero_investment_divzero (price : String → Option ℚ) (db : DB) (l : Lot)
    (hmem : l ∈ get_portfolio db) (hinv : (l.shares : ℚ) * l.purchase_price = 0)
    (hsome : (price l.symbol).isSome = true) :
    performance_report price db = (.rowDivZero, []) := by
  have hne : get_portfolio db ≠ [] := List.ne_nil_of_mem hmem
  have herr := runLots_err price (get_portfolio db) ⟨[], 0, 0⟩ ⟨l, hmem, hinv, hsome⟩
  simp only [performance_report]
  rw [if_neg hne, herr]

/-- Witness for C5: a single zero-share lot with an available price. -/
theorem C5_zero_investment_divzero_witness :
    ((⟨1, "Z", 0, 5, "d"⟩ : Lot) ∈ get_portfolio dbWit5 ∧
      ((0 : ℤ) : ℚ) * 5 = 0 ∧ (priceWit5 "Z").isSome = true) ∧
    performance_report priceWit5 dbWit5 = (.rowDivZero, []) :=
  ⟨⟨by simp [get_portfolio, dbWit5], by simp, rfl⟩,
    C5_zero_investment_divzero priceWit5 dbWit5 ⟨1, "Z", 0, 5, "d"⟩
      (by simp [get_portfolio, dbWit5]) (by simp) rfl⟩

/-- Claim C6 (confirmed): over the lots `(AAPL, 10 shares at 100)` and
`(MSFT, 5 shares at 200)` with deterministic prices `AAPL ↦ 110`,
`MSFT ↦ 190`, the report returns total investment `2000`, total current value
`2050`, total gain `50` and total gain percentage `2.50`, and the summary
totals equal the sums over the two report rows exactly. -/
theorem C6_two_lot_report :
    performance_report priceC6 dbC6 =
      (.ok rowsC6 summaryC6, ["portfolio_report.csv", "portfolio_allocation.png"]) ∧
    summaryC6.total_investment = (rowsC6.map (fun r => r.investment)).sum ∧
    summaryC6.total_current_value = (rowsC6.map (fun r => r.current_value)).sum ∧
    summaryC6.total_investment = 2000 ∧ summaryC6.total_current_value = 2050 ∧
    summaryC6.total_gain_loss = 50 ∧ summaryC6.total_gain_loss_pct = 5 / 2 := by
  refine ⟨?_, ?_, ?_, rfl, rfl, rfl, rfl⟩
  · norm_num +decide [performance_report, get_portfolio, dbC6, priceC6, runLots, processLot,
      rowsC6, summaryC6]
    intro x hx
    rcases hx with rfl | rfl <;> norm_num
  · norm_num [rowsC6, summaryC6]
  · norm_num [rowsC6, summaryC6]

/-- Claim C8 (confirmed): with zero lots, `portfolio_performance_report`
returns the failure indicator `(False, {})` and writes neither the report CSV
nor the allocation chart. -/
theorem C8_empty_portfolio (price : String → Option ℚ) (db : DB)
    (h : get_portfolio db = []) :
    performance_report price db = (.noHoldings, []) := by
  simp only [performance_report]
  rw [if_pos h]

/-- Witness for C8: the empty portfolio. -/
theorem C8_empty_portfolio_witness :
    get_portfolio dbWit8 = [] ∧ performance_report priceNone dbWit8 = (.noHoldings, []) :=
  ⟨rfl, C8_empty_portfolio priceNone dbWit8 rfl⟩

/-- Claim C9 (confirmed): `add_to_portfolio` stores the symbol upper-cased and
reports success, `get_portfolio` then lists the new lot last; in particular
`"aapl"` is stored as `"AAPL"`. -/
theorem C9_add_lot_uppercases :
    (∀ (db : DB) (s : String) (sh : ℤ) (p : ℚ) (d : String),
      (add_to_portfolio db s sh p d).1 = true ∧
      get_portfolio (add_to_portfolio db s sh p d).2 =
        get_portfolio db ++ [⟨db.nextLotId, pyUpper s, sh, p, d⟩]) ∧
    pyUpper "aapl" = "AAPL" := by
  constructor
  · intro db s sh p d
    constructor
    · rfl
    · simp [add_to_portfolio, get_portfolio, commit]
  · decide

/-- Claim C10 (confirmed): `import_from_csv` stores symbols verbatim while
`get_stock_data` upper-cases its query before matching, so a bar stored with
a symbol that is not already upper case is matched by no query casing: it is
never among the rows `WHERE symbol = ?` selects. -/
theorem C10_uppercased_query_misses_bar (db : DB) (bar : PriceBar) (q : String)
    (_hmem : bar ∈ visibleStocks db) (hlc : bar.symbol ≠ pyUpper bar.symbol)
    (hq : pyUpper q = pyUpper bar.symbol) :
    bar ∉ matchingBars db q := by
  intro hmb
  have hf := List.mem_filter.mp hmb
  have heq : bar.symbol = pyUpper q := eq_of_beq hf.2
  rw [hq] at heq
  exact hlc heq

/-- Witness for C10: the bar stored as `"aapl"` is not matched by the query
`"AAPL"`. -/
theorem C10_uppercased_query_misses_bar_witness :
    (barWit10 ∈ visibleStocks dbWit10 ∧ barWit10.symbol ≠ pyUpper barWit10.symbol ∧
      pyUpper "AAPL" = pyUpper barWit10.symbol) ∧
    barWit10 ∉ matchingBars dbWit10 "AAPL" :=
  ⟨⟨by simp [visibleStocks, dbWit10], by decide, by decide⟩,
    C10_uppercased_query_misses_bar dbWit10 barWit10 "AAPL" (by simp [visibleStocks, dbWit10])
      (by decide) (by decide)⟩

/-- Counterexample to claim C1 as stated: with one priced lot and one lot
whose price lookup fails, the report does not return a rows/summary pair at
all — it aborts with the chart `ValueError` — and the total investment it had
computed (`50`) is not the sum of the investments of the included rows
(`10`), because the skipped lot's investment was added before the price
check. -/
theorem C1_skip_counterexample :
    performance_report priceCex1 dbCex1 =
      (.chartError rowsCex1 sumCex1, ["portfolio_report.csv"]) ∧
    sumCex1.total_investment ≠ (rowsCex1.map (fun r => r.investment)).sum := by
  refine ⟨?_, ?_⟩
  · norm_num +decide [performance_report, get_portfolio, dbCex1, priceCex1, runLots, processLot,
      rowsCex1, sumCex1]
  · norm_num [sumCex1, rowsCex1]

/-- Claim C1 (corrected): when every lot's price is available, every
investment and the total investment are nonzero, and every current value is
nonnegative, the report returns one row per lot and the summary totals equal
the sums over those rows. -/
theorem C1_report_totals_all_priced (price : String → Option ℚ) (db : DB)
    (hne : get_portfolio db ≠ [])
    (hall : ∀ l ∈ get_portfolio db, (price l.symbol).isSome = true ∧ lotInvestment l ≠ 0 ∧
      0 ≤ lotCurrentValue price l)
    (htot : ((get_portfolio db).map lotInvestment).sum ≠ 0) :
    ∃ rows summary,
      performance_report price db =
        (.ok rows summary, ["portfolio_report.csv", "portfolio_allocation.png"]) ∧
      rows.length = (get_portfolio db).length ∧
      summary.total_investment = (rows.map (fun r => r.investment)).sum ∧
      summary.total_current_value = (rows.map (fun r => r.current_value)).sum := by
  have hrun := runLots_all_priced price (get_portfolio db) ⟨[], 0, 0⟩
    (fun l hl => ⟨(hall l hl).1, (hall l hl).2.1⟩)
  have halloc := allocations_all_priced price (get_portfolio db) (fun l hl => (hall l hl).1)
  refine ⟨(get_portfolio db).map (mkRow price),
    ⟨((get_portfolio db).map lotInvestment).sum,
      ((get_portfolio db).map (lotCurrentValue price)).sum,
      ((get_portfolio db).map (lotCurrentValue price)).sum -
        ((get_portfolio db).map lotInvestment).sum,
      (((get_portfolio db).map (lotCurrentValue price)).sum -
        ((get_portfolio db).map lotInvestment).sum) /
        ((get_portfolio db).map lotInvestment).sum * 100⟩, ?_, ?_, ?_, ?_⟩
  · simp only [performance_report]
    rw [if_neg hne, hrun]
    simp only [List.nil_append, zero_add]
    rw [if_neg htot, halloc]
    rw [if_pos ?cond]
    case cond =>
      constructor
      · simp [List.length_map]
      · intro a ha
        obtain ⟨l, hl, rfl⟩ := List.mem_map.mp ha
        exact (hall l hl).2.2
  · simp [List.length_map]
  · rw [List.map_map]
    rfl
  · rw [List.map_map]
    rfl

/-- Witness for the corrected C1: two priced lots. -/
theorem C1_report_totals_all_priced_witness :
    (get_portfolio dbWit1 ≠ [] ∧
      (∀ l ∈ get_portfolio dbWit1, (priceWit1 l.symbol).isSome = true ∧ lotInvestment l ≠ 0 ∧
        0 ≤ lotCurrentValue priceWit1 l) ∧
      ((get_portfolio dbWit1).map lotInvestment).sum ≠ 0) ∧
    (∃ rows summary,
      performance_report priceWit1 dbWit1 =
        (.ok rows summary, ["portfolio_report.csv", "portfolio_allocation.png"]) ∧
      rows.length = (get_portfolio dbWit1).length ∧
      summary.total_investment = (rows.map (fun r => r.investment)).sum ∧
      summary.total_current_value = (rows.map (fun r => r.current_value)).sum) :=
  ⟨⟨by simp [get_portfolio, dbWit1],
      by
        intro l hl
        simp only [get_portfolio, dbWit1, List.append_nil, List.mem_singleton] at hl
        subst hl
        exact ⟨rfl, by simp [lotInvestment], by simp [lotCurrentValue, priceWit1]⟩,
      by simp [get_portfolio, dbWit1, lotInvestment]⟩,
    C1_report_totals_all_priced priceWit1 dbWit1 (by simp [get_portfolio, dbWit1])
      (by
        intro l hl
        simp only [get_portfolio, dbWit1, List.append_nil, List.mem_singleton] at hl
        subst hl
        exact ⟨rfl, by simp [lotInvestment], by simp [lotCurrentValue, priceWit1]⟩)
      (by simp [get_portfolio, dbWit1, lotInvestment])⟩

/-- Claim C2 (code bug): at the failing input — the spec's two lots with the
MSFT lookup failing — the lot is indeed silently skipped from the rows and
the current-value total, and the loop completes; but the report then raises a
`ValueError` while rendering the allocation chart (two labels against one
allocation), after having written the report CSV, instead of returning the
`(rows, summary)` pair. -/
theorem C2_price_failure_raises_chart_error :
    performance_report priceC2x dbC2x =
      (.chartError [⟨"AAPL", 10, 100, 110, 1000, 1100, 100, 10⟩] ⟨2000, 1100, -900, -45⟩,
        ["portfolio_report.csv"]) := by
  norm_num +decide [performance_report, get_portfolio, dbC2x, priceC2x, runLots, processLot]

/-! ## CSV-import lemmas -/

theorem digitVal_c0 : digitVal '0' = 0 := rfl

theorem digitVal_c1 : digitVal '1' = 1 := rfl

theorem digitVal_c2 : digitVal '2' = 2 := rfl

theorem digitVal_c3 : digitVal '3' = 3 := rfl

theorem digitVal_c4 : digitVal '4' = 4 := rfl

theorem digitVal_c5 : digitVal '5' = 5 := rfl

theorem digitVal_c6 : digitVal '6' = 6 := rfl

theorem digitVal_c7 : digitVal '7' = 7 := rfl

theorem digitVal_c8 : digitVal '8' = 8 := rfl

theorem digitVal_c9 : digitVal '9' = 9 := rfl

theorem isDecB_of {q : ℚ} {k : Nat} (hk : k ≤ q.den) (h : (q * 10 ^ k).den = 1) :
    isDecB q = true := by
  have hsome : (((List.range (q.den + 1)).find? fun x => (q * 10 ^ x).den == 1)).isSome := by
    rw [List.find?_isSome]
    exact ⟨k, List.mem_range.mpr (by omega), by simp [h]⟩
  obtain ⟨j, hj⟩ := Option.isSome_iff_exists.mp hsome
  have hpj := List.find?_some hj
  have hde : decExp q = j := by
    rw [decExp, hj]
    rfl
  rw [isDecB, hde]
  exact hpj

theorem bind_ok {α β : Type} (a : α) (f : α → Except RowErr β) :
    (Except.ok a >>= f : Except RowErr β) = f a := rfl

theorem bind_error {α β : Type} (e : RowErr) (f : α → Except RowErr β) :
    ((Except.error e : Except RowErr α) >>= f : Except RowErr β) = .error e := rfl

theorem getStr_eq {header row : List String} {key : String} {i : Nat}
    (h : colIndex key header = some i) : getStr header row key = .ok row[i]? := by
  simp only [getStr, h]

theorem getFloat_eq_ok {header row : List String} {key s : String} {q : ℚ}
    (hs : getStr header row key = .ok (some s)) (hp : parseFloat s = some q) :
    getFloat header row key = .ok q := by
  simp only [getFloat, hs, hp]

theorem getFloat_eq_valueErr {header row : List String} {key s : String}
    (hs : getStr header row key = .ok (some s)) (hp : parseFloat s = none) :
    getFloat header row key = .error .valueErr := by
  simp only [getFloat, hs, hp]

theorem getInt_eq_ok {header row : List String} {key s : String} {v : ℤ}
    (hs : getStr header row key = .ok (some s)) (hp : parseInt s = some v) :
    getInt header row key = .ok v := by
  simp only [getInt, hs, hp]

theorem getInt_eq_valueErr {header row : List String} {key s : String}
    (hs : getStr header row key = .ok (some s)) (hp : parseInt s = none) :
    getInt header row key = .error .valueErr := by
  simp only [getInt, hs, hp]

theorem colIndex_lt {key : String} :
    ∀ {header : List String} {i : Nat}, colIndex key header = some i → i < header.length := by
  intro header
  induction header with
  | nil =>
    intro i h
    simp [colIndex] at h
  | cons hd t ih =>
    intro i h
    simp only [colIndex] at h
    by_cases he : hd = key
    · rw [if_pos he] at h
      cases h
      simp
    · rw [if_neg he] at h
      cases hc : colIndex key t with
      | none =>
        rw [hc] at h
        simp at h
      | some j =>
        rw [hc] at h
        simp only [Option.map_some', Option.some.injEq] at h
        have := ih hc
        simp only [List.length_cons]
        omega

theorem colIndex_some_of_mem {key : String} :
    ∀ {header : List String}, key ∈ header → ∃ i, colIndex key header = some i := by
  intro header
  induction header with
  | nil =>
    intro h
    simp at h
  | cons hd t ih =>
    intro h
    by_cases he : hd = key
    · exact ⟨0, by simp [colIndex, he]⟩
    · rcases List.mem_cons.mp h with he2 | hmem
      · exact absurd he2.symm he
      · obtain ⟨i, hi⟩ := ih hmem
        exact ⟨i + 1, by simp [colIndex, he, hi]⟩

theorem getStr_wf {header row : List String} {key : String} (hk : key ∈ header)
    (hlen : header.length ≤ row.length) : ∃ s, getStr header row key = .ok (some s) := by
  obtain ⟨i, hi⟩ := colIndex_some_of_mem hk
  have hil : i < row.length := lt_of_lt_of_le (colIndex_lt hi) hlen
  refine ⟨row[i], ?_⟩
  rw [getStr_eq hi, List.getElem?_eq_getElem hil]

theorem getFloat_wf {header row : List String} {key : String} (hk : key ∈ header)
    (hlen : header.length ≤ row.length) :
    getFloat header row key = .error .valueErr ∨ ∃ q, getFloat header row key = .ok q := by
  obtain ⟨s, hs⟩ := getStr_wf hk hlen
  cases hp : parseFloat s with
  | none => exact Or.inl (getFloat_eq_valueErr hs hp)
  | some q => exact Or.inr ⟨q, getFloat_eq_ok hs hp⟩

theorem getInt_wf {header row : List String} {key : String} (hk : key ∈ header)
    (hlen : header.length ≤ row.length) :
    getInt header row key = .error .valueErr ∨ ∃ v, getInt header row key = .ok v := by
  obtain ⟨s, hs⟩ := getStr_wf hk hlen
  cases hp : parseInt s with
  | none => exact Or.inl (getInt_eq_valueErr hs hp)
  | some v => exact Or.inr ⟨v, getInt_eq_ok hs hp⟩

theorem convertRow_wf (header row : List String)
    (hk : ∀ key ∈ requiredCols, key ∈ header) (hlen : header.length ≤ row.length) :
    convertRow header row = .error .valueErr ∨ ∃ d, convertRow header row = .ok d := by
  obtain ⟨s1, h1⟩ := getStr_wf (hk "Symbol" (by decide)) hlen
  obtain ⟨s2, h2⟩ := getStr_wf (hk "Date" (by decide)) hlen
  rcases getFloat_wf (hk "Open" (by decide)) hlen with ho | ⟨qo, ho⟩
  · exact Or.inl (by simp only [convertRow, h1, h2, ho, bind_ok, bind_error])
  rcases getFloat_wf (hk "High" (by decide)) hlen with hh | ⟨qh, hh⟩
  · exact Or.inl (by simp only [convertRow, h1, h2, ho, hh, bind_ok, bind_error])
  rcases getFloat_wf (hk "Low" (by decide)) hlen with hl2 | ⟨ql, hl2⟩
  · exact Or.inl (by simp only [convertRow, h1, h2, ho, hh, hl2, bind_ok, bind_error])
  rcases getFloat_wf (hk "Close" (by decide)) hlen with hc2 | ⟨qc, hc2⟩
  · exact Or.inl (by simp only [convertRow, h1, h2, ho, hh, hl2, hc2, bind_ok, bind_error])
  rcases getInt_wf (hk "Volume" (by decide)) hlen with hv | ⟨v, hv⟩
  · exact Or.inl (by simp only [convertRow, h1, h2, ho, hh, hl2, hc2, hv, bind_ok, bind_error])
  · refine Or.inr ⟨⟨s1, s2, qo, qh, ql, qc, v⟩, ?_⟩
    simp only [convertRow, h1, h2, ho, hh, hl2, hc2, hv, bind_ok]
    rfl

theorem importRows_wf (header : List String) :
    ∀ (rows : List (List String)) (db : DB),
      (∀ r ∈ rows, convertRow header r = .error .valueErr ∨ ∃ d, convertRow header r = .ok d) →
      ∃ b db', importRows header rows db = .ok b db' := by
  intro rows
  induction rows with
  | nil =>
    intro db _
    exact ⟨true, commit db, rfl⟩
  | cons r rs ih =>
    intro db h
    rcases h r (List.mem_cons_self r rs) with he | ⟨d, hd⟩
    · refine ⟨false, db, ?_⟩
      simp only [importRows, he]
    · obtain ⟨b, db', hb⟩ := ih (insertStock db d) (fun x hx => h x (List.mem_cons_of_mem r hx))
      refine ⟨b, db', ?_⟩
      simp only [importRows, hd]
      exact hb

/-! ## Claim theorems: CSV import -/

/-- Counterexample to claim C3 as stated: importing a two-record CSV whose
second record has the non-numeric `Open` field `"abc"` reports failure, but
the first record's row remains in the stocks table: the connection sees one
row where it saw none before, and the next `conn.commit()` (here issued by
`add_to_portfolio`) makes it durable. -/
theorem C3_partial_insert_counterexample :
    import_from_csv (.file ⟨hdrStd, [goodRowC3, badRowC3]⟩) dbWit3 =
      .ok false ⟨[], [barC3], [], [], 2, 1⟩ ∧
    (visibleStocks ⟨[], [barC3], [], [], 2, 1⟩).length ≠ (visibleStocks dbWit3).length ∧
    ((add_to_portfolio ⟨[], [barC3], [], [], 2, 1⟩ "x" 1 1 "d").2).stocks.length = 1 := by
  refine ⟨?_, by simp [visibleStocks, dbWit3, barC3], by simp [add_to_portfolio, commit, barC3]⟩
  norm_num +decide [import_from_csv, importRows, convertRow, getStr, getFloat, getInt,
    colIndex, parseFloat, parseFloatCore, splitAtDot, parseWithDot, parseNoDot, parseInt,
    digitsVal, List.foldl, isDigitChar, digitVal_c0, digitVal_c1, digitVal_c2, digitVal_c3,
    digitVal_c4, digitVal_c5, digitVal_c6, digitVal_c7, digitVal_c9, insertStock,
    hdrStd, goodRowC3, badRowC3, dbWit3, barC3]

/-- Claim C3 (corrected): when the records before row `k` convert and row `k`
fails `float`/`int` conversion, `import_from_csv` returns `False`, and the
rows already executed stay in the open transaction: the connection-visible
row count grows by `k - 1` (nothing is rolled back; the rows become durable
with the next commit). -/
theorem C3_import_failure_keeps_rows (header : List String) :
    ∀ (good : List (List String)) (bad : List String) (rest : List (List String)) (db : DB),
      (∀ r ∈ good, rowOk header r = true) →
      rowFailsValue header bad = true →
      ∃ db', import_from_csv (.file ⟨header, good ++ bad :: rest⟩) db = .ok false db' ∧
        (visibleStocks db').length = (visibleStocks db).length + good.length := by
  intro good
  induction good with
  | nil =>
    intro bad rest db hg hb
    refine ⟨db, ?_, by simp⟩
    show importRows header (bad :: rest) db = .ok false db
    unfold rowFailsValue at hb
    cases hcv : convertRow header bad with
    | ok d =>
      rw [hcv] at hb
      simp at hb
    | error e =>
      cases e with
      | fatal =>
        rw [hcv] at hb
        simp at hb
      | valueErr => simp only [importRows, hcv]
  | cons r rs ih =>
    intro bad rest db hg hb
    have hr := hg r (List.mem_cons_self r rs)
    unfold rowOk at hr
    cases hcv : convertRow header r with
    | error e =>
      rw [hcv] at hr
      simp at hr
    | ok d =>
      obtain ⟨db', h1, h2⟩ := ih bad rest (insertStock db d)
        (fun x hx => hg x (List.mem_cons_of_mem r hx)) hb
      refine ⟨db', ?_, ?_⟩
      · show importRows header ((r :: rs) ++ bad :: rest) db = .ok false db'
        rw [List.cons_append]
        simp only [importRows, hcv]
        exact h1
      · rw [h2]
        have hins : (visibleStocks (insertStock db d)).length
            = (visibleStocks db).length + 1 := by
          simp [visibleStocks, insertStock]
          omega
        rw [hins]
        simp only [List.length_cons]
        omega

/-- Witness for the corrected C3: one good record before the bad one. -/
theorem C3_import_failure_keeps_rows_witness :
    ((∀ r ∈ [goodRowC3], rowOk hdrStd r = true) ∧ rowFailsValue hdrStd badRowC3 = true) ∧
    (∃ db', import_from_csv (.file ⟨hdrStd, [goodRowC3] ++ badRowC3 :: []⟩) dbWit3 =
        .ok false db' ∧
      (visibleStocks db').length = (visibleStocks dbWit3).length + [goodRowC3].length) :=
  ⟨⟨by
      intro r hr
      simp only [List.mem_singleton] at hr
      subst hr
      norm_num +decide [rowOk, convertRow, getStr, getFloat, getInt, colIndex, parseFloat,
        parseFloatCore, splitAtDot, parseWithDot, parseNoDot, parseInt, digitsVal, List.foldl,
        isDigitChar, digitVal_c0, digitVal_c2, digitVal_c3, digitVal_c7, hdrStd, goodRowC3],
    by
      norm_num +decide [rowFailsValue, convertRow, getStr, getFloat, getInt, colIndex,
        parseFloat, parseFloatCore, splitAtDot, parseWithDot, parseNoDot, parseInt, digitsVal,
        List.foldl, isDigitChar, hdrStd, badRowC3]⟩,
    C3_import_failure_keeps_rows hdrStd [goodRowC3] badRowC3 [] dbWit3
      (by
        intro r hr
        simp only [List.mem_singleton] at hr
        subst hr
        norm_num +decide [rowOk, convertRow, getStr, getFloat, getInt, colIndex, parseFloat,
          parseFloatCore, splitAtDot, parseWithDot, parseNoDot, parseInt, digitsVal, List.foldl,
          isDigitChar, digitVal_c0, digitVal_c2, digitVal_c3, digitVal_c7, hdrStd, goodRowC3])
      (by
        norm_num +decide [rowFailsValue, convertRow, getStr, getFloat, getInt, colIndex,
          parseFloat, parseFloatCore, splitAtDot, parseWithDot, parseNoDot, parseInt, digitsVal,
          List.foldl, isDigitChar, hdrStd, badRowC3])⟩

/-- Counterexample to claim C4 as stated: a CSV whose header spells the first
column `Sym` instead of `Symbol` makes `row['Symbol']` raise a `KeyError`,
which the `except` clause of `import_from_csv` does not catch — the exception
propagates instead of a `False` return. -/
theorem C4_misnamed_header_counterexample :
    import_from_csv (.file ⟨hdrBad, [rowC4]⟩) dbWit4 = .raised dbWit4 := by
  rfl

/-- Claim C4 (corrected): `import_from_csv` returns `False` rather than
raising for a missing file and for records whose numeric fields fail
conversion; as long as the header contains the seven expected column names
and no record is shorter than the header, no exception escapes — the call
returns a boolean. -/
theorem C4_import_never_raises_on_wellformed (src : CsvSource) (db : DB)
    (h : wellFormedSource src) : ∃ b db', import_from_csv src db = .ok b db' := by
  cases src with
  | missing => exact ⟨false, db, rfl⟩
  | file f =>
    have h' : (∀ key ∈ requiredCols, key ∈ f.header) ∧
        ∀ r ∈ f.rows, f.header.length ≤ r.length := h
    exact importRows_wf f.header f.rows db
      (fun r hr => convertRow_wf f.header r h'.1 (h'.2 r hr))

/-- Witness for the corrected C4: a well-formed one-record file. -/
theorem C4_import_never_raises_on_wellformed_witness :
    wellFormedSource (.file ⟨hdrStd, [rowWit4]⟩) ∧
    (∃ b db', import_from_csv (.file ⟨hdrStd, [rowWit4]⟩) dbWit4 = .ok b db') :=
  ⟨⟨by decide, by decide⟩,
    C4_import_never_raises_on_wellformed (.file ⟨hdrStd, [rowWit4]⟩) dbWit4
      ⟨by decide, by decide⟩⟩

/-! ## Claim theorems: export / import round trip -/

theorem convertRow_exportRow (b : PriceBar) (h : barDecimal b) :
    convertRow exportHeader (exportRow b) = .ok b.fields := by
  obtain ⟨ho, hh, hl2, hc2⟩ := h
  have e1 : getStr exportHeader (exportRow b) "Symbol" = .ok (some b.symbol) := rfl
  have e2 : getStr exportHeader (exportRow b) "Date" = .ok (some b.date) := rfl
  have e3s : getStr exportHeader (exportRow b) "Open" = .ok (some (fmtRat b.openPrice)) := rfl
  have e4s : getStr exportHeader (exportRow b) "High" = .ok (some (fmtRat b.highPrice)) := rfl
  have e5s : getStr exportHeader (exportRow b) "Low" = .ok (some (fmtRat b.lowPrice)) := rfl
  have e6s : getStr exportHeader (exportRow b) "Close" = .ok (some (fmtRat b.closePrice)) := rfl
  have e7s : getStr exportHeader (exportRow b) "Volume" = .ok (some (intToString b.volume)) :=
    rfl
  have e3 := getFloat_eq_ok e3s (parseFloat_fmtRat ho)
  have e4 := getFloat_eq_ok e4s (parseFloat_fmtRat hh)
  have e5 := getFloat_eq_ok e5s (parseFloat_fmtRat hl2)
  have e6 := getFloat_eq_ok e6s (parseFloat_fmtRat hc2)
  have e7 := getInt_eq_ok e7s (parseInt_intToString b.volume)
  simp only [convertRow, e1, e2, e3, e4, e5, e6, e7, bind_ok]
  rfl

theorem importRows_export :
    ∀ (bars : List PriceBar) (db2 : DB), (∀ b ∈ bars, barDecimal b) →
      ∃ db', importRows exportHeader (bars.map exportRow) db2 = .ok true db' ∧
        (visibleStocks db').map PriceBar.fields =
          (visibleStocks db2).map PriceBar.fields ++ bars.map PriceBar.fields := by
  intro bars
  induction bars with
  | nil =>
    intro db2 _
    refine ⟨commit db2, rfl, ?_⟩
    simp [visibleStocks, commit]
  | cons b bs ih =>
    intro db2 hdec
    obtain ⟨db', h1, h2⟩ := ih (insertStock db2 b.fields)
      (fun x hx => hdec x (List.mem_cons_of_mem b hx))
    refine ⟨db', ?_, ?_⟩
    · simp only [List.map_cons, importRows,
        convertRow_exportRow b (hdec b (List.mem_cons_self b bs))]
      exact h1
    · rw [h2]
      have hins : (visibleStocks (insertStock db2 b.fields)).map PriceBar.fields
          = (visibleStocks db2).map PriceBar.fields ++ [b.fields] := by
        simp [visibleStocks, insertStock, PriceBar.fields]
      rw [hins]
      simp

/-- Claim C7 (confirmed): exporting the full stocks table and importing the
resulting CSV back succeeds (returning `True`), the export's extra `ID`
column being ignored, and appends rows whose seven data fields equal the
original rows' fields exactly — stated for tables whose float fields hold
finite decimal fractions, which is every value a Python float can hold. -/
theorem C7_export_import_roundtrip (db db2 : DB)
    (h : ∀ b ∈ visibleStocks db, barDecimal b) :
    ∃ db', import_from_csv (.file (export_to_csv db)) db2 = .ok true db' ∧
      (visibleStocks db').map PriceBar.fields =
        (visibleStocks db2).map PriceBar.fields ++ (visibleStocks db).map PriceBar.fields := by
  exact importRows_export (visibleStocks db) db2 h

/-- Witness for C7: a one-bar table. -/
theorem C7_export_import_roundtrip_witness :
    (∀ b ∈ visibleStocks dbWit7, barDecimal b) ∧
    (∃ db', import_from_csv (.file (export_to_csv dbWit7)) dbWit7b = .ok true db' ∧
      (visibleStocks db').map PriceBar.fields =
        (visibleStocks dbWit7b).map PriceBar.fields ++
          (visibleStocks dbWit7).map PriceBar.fields) :=
  ⟨by
    intro b hb
    simp only [visibleStocks, dbWit7, List.append_nil, List.mem_singleton] at hb
    subst hb
    exact ⟨isDecB_of (Nat.zero_le _) (by norm_num), isDecB_of (Nat.zero_le _) (by norm_num),
      isDecB_of (Nat.zero_le _) (by norm_num), isDecB_of (Nat.zero_le _) (by norm_num)⟩,
   C7_export_import_roundtrip dbWit7 dbWit7b
    (by
      intro b hb
      simp only [visibleStocks, dbWit7, List.append_nil, List.mem_singleton] at hb
      subst hb
      exact ⟨isDecB_of (Nat.zero_le _) (by norm_num), isDecB_of (Nat.zero_le _) (by norm_num),
        isDecB_of (Nat.zero_le _) (by norm_num), isDecB_of (Nat.zero_le _) (by norm_num)⟩)⟩
